import Mathlib

/-!
Verification development for the SOW markdown extension-and-rendering engine
(`app/markdown_parser.py`).

The Python source is shallowly embedded below.  Conventions of the embedding:

* strings are Lean `String` (a structure over `List Char`); the scanning
  functions work on `List Char` and are wrapped at the `String` level;
* Python `float` arithmetic is modelled exactly over `ℚ` (the quantities the
  code manipulates are decimal literals parsed from the input; no claim in
  scope depends on binary rounding), and `f-string` numeric formatting is
  modelled by explicit decimal rounding (round-half-even, as CPython formats);
* Python regular expressions are compiled by hand into deterministic scanners;
  wherever a regex could backtrack, the embedding reproduces the leftmost /
  greedy / lazy behaviour of `re` (notes at each definition);
* regex character classes `\s` and `\w` are modelled over their ASCII meaning
  (the inputs of this DSL), `\s = space, tab, newline, carriage return,
  vertical tab, form feed`, `\w = letters, digits, underscore`;
* the external CommonMark renderer (`markdown_it`, an excluded collaborator)
  is a parameter `md : String → String` of every function that calls it;
* Python `dict[str, str]` is modelled by an association list where the most
  recent binding wins (`dictGet`), which matches `dict.get` / assignment /
  `{**a, **b}` merge semantics for every lookup performed by the code;
* functions that in Python could raise (`min`/`max` of an empty sequence,
  division by zero) additionally get an `Except`-valued variant (suffix `E`)
  whose error cases sit exactly at the Python raise points; totality of the
  pipeline is the statement that the `E`-variant always returns `Except.ok`.

Recursions that consume a suffix of the input after each match use an explicit
fuel argument initialised with the input length (the scanners consume at least
one character per step, so length fuel suffices); this keeps every definition
structurally recursive and kernel-evaluable.
-/

set_option maxRecDepth 100000

namespace SOW

/-! ### Character classes (ASCII models of `\s`, `\w`) -/

def isSpaceChar (c : Char) : Bool :=
  c = ' ' || c = '\t' || c = '\n' || c = '\r' || c = '\x0b' || c = '\x0c'

def isWordChar (c : Char) : Bool :=
  c.isAlpha || c.isDigit || c = '_'

/-! ### List/string utilities shared by the scanners -/

/-- Does `pre` occur at the head of `l`? -/
def listStartsWith : List Char → List Char → Bool
  | [], _ => true
  | _ :: _, [] => false
  | p :: ps, c :: cs => p = c && listStartsWith ps cs

/-- Does `pat` occur as a contiguous substring of `l`? -/
def listContainsSub (pat : List Char) : List Char → Bool
  | [] => listStartsWith pat []
  | c :: t => listStartsWith pat (c :: t) || listContainsSub pat t

/-- Substring test at the `String` level (Python `sub in s`). -/
def str_contains (s sub : String) : Bool :=
  listContainsSub sub.data s.data

/-- Python `str.strip()` over the ASCII whitespace class. -/
def trimList (l : List Char) : List Char :=
  ((l.dropWhile isSpaceChar).reverse.dropWhile isSpaceChar).reverse

def strip (s : String) : String := ⟨trimList s.data⟩

/-- Python `str.split(sep)` for a single-character separator. -/
def splitOnCharL (sep : Char) : List Char → List (List Char)
  | [] => [[]]
  | c :: t =>
    if c = sep then [] :: splitOnCharL sep t
    else
      match splitOnCharL sep t with
      | h :: r => (c :: h) :: r
      | [] => [[c]]

/-- Python `text.replace(crlf, newline)` specialised to the one use site. -/
def replaceCRLF : List Char → List Char
  | '\r' :: '\n' :: t => '\n' :: replaceCRLF t
  | c :: t => c :: replaceCRLF t
  | [] => []

/-- Python `line.split(colon, 1)`: split at the first occurrence, if any. -/
def splitFirstOn (sep : Char) : List Char → Option (List Char × List Char)
  | [] => none
  | c :: t =>
    if c = sep then some ([], t)
    else (splitFirstOn sep t).map (fun p => (c :: p.1, p.2))

/-- Python `content.split(dashes)` for the three-dash signature separator. -/
def splitDashes : List Char → List (List Char)
  | '-' :: '-' :: '-' :: t => [] :: splitDashes t
  | c :: t =>
    match splitDashes t with
    | h :: r => (c :: h) :: r
    | [] => [[c]]
  | [] => [[]]

/-- Decimal value of a digit string (Python `int` on a digits-only string). -/
def natOfDigits (l : List Char) : ℕ :=
  l.foldl (fun n c => 10 * n + (c.toNat - 48)) 0

/-- Python `str(i)` for an integer. -/
def intStr (n : ℤ) : String :=
  if n < 0 then "-" ++ Nat.repr n.natAbs else Nat.repr n.natAbs

/-- Lookup in the association-list model of a Python `dict`: the most recent
(`rightmost`) binding wins, matching assignment-overwrite semantics. -/
def dictGet (d : List (String × String)) (k : String) : Option String :=
  match d with
  | [] => none
  | p :: t =>
    match dictGet t k with
    | some v => some v
    | none => if p.1 = k then some p.2 else none

/-! ### HTML escaping (`html.escape` with `quote=True`)

`html.escape` performs sequential `str.replace` passes for `&`, `<`, `>`,
`"`, `'`; since no entity it inserts contains a character replaced by a later
pass, this equals the single character-wise map below. -/

def escChar (c : Char) : List Char :=
  if c = '&' then "&amp;".data
  else if c = '<' then "&lt;".data
  else if c = '>' then "&gt;".data
  else if c = '"' then "&quot;".data
  else if c = '\x27' then "&#x27;".data
  else [c]

def escapeList (l : List Char) : List Char := (l.map escChar).flatten

def escape_html (s : String) : String := ⟨escapeList s.data⟩

/-! ### Money parsing and fixed-point formatting

`_parse_money` strips every character other than digits, dot and minus and
feeds the result to Python `float`, returning `None` on `ValueError`.  On the
stripped alphabet, `float` accepts exactly: an optional leading minus, then
digits with at most one dot and at least one digit overall. -/

def clean_money_chars (l : List Char) : List Char :=
  l.filter (fun c => c.isDigit || c = '.' || c = '-')

/-- Fractional value of a digit string read after a decimal point. -/
def fracOfDigits (l : List Char) : ℚ :=
  (natOfDigits l : ℚ) / ((10 : ℚ) ^ l.length)

/-- Unsigned Python `float` literal over the digits-and-dot alphabet. -/
def parseUnsignedDec (l : List Char) : Option ℚ :=
  let ip := l.takeWhile Char.isDigit
  let rest := l.dropWhile Char.isDigit
  match rest with
  | [] => if ip.isEmpty then none else some (natOfDigits ip)
  | c :: fp =>
    if c = '.' then
      if fp.all Char.isDigit then
        if ip.isEmpty && fp.isEmpty then none
        else some ((natOfDigits ip : ℚ) + fracOfDigits fp)
      else none
    else none

/-- `_parse_money` of the source, over exact rationals. -/
def parse_money (value : String) : Option ℚ :=
  match clean_money_chars value.data with
  | '-' :: rest => (parseUnsignedDec rest).map (fun q => -q)
  | l => parseUnsignedDec l

/-- Round to the nearest integer, ties to even (CPython float formatting on
the exact value). -/
def roundHalfEven (q : ℚ) : ℤ :=
  let f : ℤ := ⌊q⌋
  let r : ℚ := q - (f : ℚ)
  if r < 1 / 2 then f
  else if 1 / 2 < r then f + 1
  else if f % 2 = 0 then f else f + 1

/-- Python `f-string` `:.2f`: sign, integer digits, dot, exactly two digits. -/
def formatFixed2 (q : ℚ) : String :=
  let n : ℤ := roundHalfEven (q * 100)
  let m : ℕ := n.natAbs
  (if n < 0 then "-" else "")
    ++ Nat.repr (m / 100) ++ "."
    ++ ⟨[Nat.digitChar (m / 10 % 10), Nat.digitChar (m % 10)]⟩

/-- `_format_money` of the source. -/
def format_money (amount : ℚ) : String := "$" ++ formatFixed2 amount

/-- Python `f-string` `:g` (default precision 6), modelled for the magnitude
range this code produces (percent values below 10^6); scientific notation for
very large or very small magnitudes is not modelled. -/
def formatG (q : ℚ) : String :=
  let sgn := if q < 0 then "-" else ""
  let a : ℚ := if q < 0 then -q else q
  if a.den = 1 then sgn ++ Nat.repr a.num.toNat
  else
    let intDigits := (Nat.repr (⌊a⌋).toNat).length
    let decimals := 6 - min 6 intDigits
    let scaled := (roundHalfEven (a * (10 : ℚ) ^ decimals)).toNat
    let whole := scaled / 10 ^ decimals
    let fr := scaled % 10 ^ decimals
    if fr = 0 then sgn ++ Nat.repr whole
    else
      let frS := Nat.repr fr
      let frPad := List.replicate (decimals - frS.length) '0' ++ frS.data
      sgn ++ Nat.repr whole ++ "." ++ ⟨(frPad.reverse.dropWhile (· = '0')).reverse⟩

/-! ### Percent modifiers (`_extract_percent`) -/

/-- Strip `pat` from the head of `l`, comparing case-insensitively
(`re.IGNORECASE` over ASCII). -/
def ciStrip : List Char → List Char → Option (List Char)
  | [], l => some l
  | _ :: _, [] => none
  | p :: ps, c :: cs => if p.toLower = c.toLower then ciStrip ps cs else none

/-- `re.match(field + whitespace-star + colon, line, IGNORECASE)`: does `l`
start with `field` (case-insensitively) followed by optional whitespace and a
colon? -/
def matchFieldColon (field l : List Char) : Bool :=
  match ciStrip field l with
  | none => false
  | some rest =>
    match rest.dropWhile isSpaceChar with
    | c :: _ => c = ':'
    | [] => false

/-- Match the number regex (optional minus, digits, optional dot-digits) at
the head of `l`.  The character classes are disjoint, so the regex engine's
greedy matching is deterministic here. -/
def numberAtHead (l : List Char) : Option ℚ :=
  let core : List Char → Option ℚ := fun m =>
    let ds := m.takeWhile Char.isDigit
    let rest := m.dropWhile Char.isDigit
    if ds.isEmpty then none
    else
      match rest with
      | c :: t =>
        if c = '.' then
          let fs := t.takeWhile Char.isDigit
          if fs.isEmpty then some (natOfDigits ds)
          else some ((natOfDigits ds : ℚ) + fracOfDigits fs)
        else some (natOfDigits ds)
      | [] => some (natOfDigits ds)
  match l with
  | '-' :: t => (core t).map (fun q => -q)
  | _ => core l

/-- `re.search` for the number regex: first position with a match wins. -/
def findFirstNumber : List Char → Option ℚ
  | [] => none
  | c :: t =>
    match numberAtHead (c :: t) with
    | some v => some v
    | none => findFirstNumber t

/-- `_extract_percent` of the source. -/
def extract_percent (line : String) (field : String) : Option ℚ :=
  if matchFieldColon field.data line.data then findFirstNumber line.data
  else none

/-! ### Pricing table rows (`_extract_table_amount`) -/

/-- The separator-row regex anchors both ends and consumes only characters
from the class dash, colon, pipe, whitespace (the optional pipes and the
leading/trailing whitespace are subsets of that class), so it matches exactly
the nonempty lines made only of those characters. -/
def is_separator_row (l : List Char) : Bool :=
  !l.isEmpty && l.all (fun c => c = '-' || c = ':' || c = '|' || isSpaceChar c)

/-- Cells of a table row: split on pipe, strip, drop empties. -/
def rowCells (l : List Char) : List (List Char) :=
  ((splitOnCharL '|' l).map trimList).filter (fun c => !c.isEmpty)

/-- `_extract_table_amount` of the source. -/
def extract_table_amount (line : String) : Option ℚ :=
  let l := line.data
  if !(l.contains '|') then none
  else if is_separator_row l then none
  else
    match rowCells l with
    | c0 :: c1 :: rest =>
      if listContainsSub ("total".data) (c0.map Char.toLower) then none
      else parse_money ⟨(c1 :: rest).getLastD c0⟩
    | _ => none

/-! ### Pricing summary (`_summarize_pricing_values`, `_build_pricing_summary`) -/

/-- One iteration of the summarising loop, on a raw (unstripped) line. -/
def pricing_step (acc : ℚ × ℚ × ℚ) (raw : List Char) : ℚ × ℚ × ℚ :=
  let line : String := ⟨trimList raw⟩
  match extract_percent line "discount" with
  | some v => (acc.1, v, acc.2.2)
  | none =>
    match extract_percent line "tax" with
    | some v => (acc.1, acc.2.1, v)
    | none =>
      match extract_table_amount line with
      | some a => (acc.1 + a, acc.2.1, acc.2.2)
      | none => acc

/-- Content lines: normalise CRLF and split on newline. -/
def contentLines (content : String) : List (List Char) :=
  splitOnCharL '\n' (replaceCRLF content.data)

/-- `_summarize_pricing_values` of the source:
`(subtotal, discount_pct, tax_pct)`. -/
def summarize_pricing_values (content : String) : ℚ × ℚ × ℚ :=
  (contentLines content).foldl pricing_step (0, 0, 0)

def subtotal_div (st : ℚ) : String :=
  "<div><strong>Subtotal:</strong> " ++ format_money st ++ "</div>"

def discount_div (pct amount : ℚ) : String :=
  "<div><strong>Discount (" ++ formatG pct ++ "%):</strong> -"
    ++ format_money amount ++ "</div>"

def tax_div (pct amount : ℚ) : String :=
  "<div><strong>Tax (" ++ formatG pct ++ "%):</strong> "
    ++ format_money amount ++ "</div>"

def grand_total_div (g : ℚ) : String :=
  "<div class=\"pricing-grand-total\"><strong>Total:</strong> "
    ++ format_money g ++ "</div>"

/-- `_build_pricing_summary` of the source. -/
def build_pricing_summary (content : String) : String :=
  let s := summarize_pricing_values content
  let subtotal := s.1
  let discount_pct := s.2.1
  let tax_pct := s.2.2
  let discount_amount := subtotal * (discount_pct / 100)
  let discounted := subtotal - discount_amount
  let tax_amount := discounted * (tax_pct / 100)
  let grand_total := discounted + tax_amount
  "<div class=\"pricing-summary\">"
    ++ subtotal_div subtotal
    ++ (if discount_pct ≠ 0 then discount_div discount_pct discount_amount else "")
    ++ (if tax_pct ≠ 0 then tax_div tax_pct tax_amount else "")
    ++ grand_total_div grand_total
    ++ "</div>"

/-! ### Timeline entries (`_parse_timeline_entry`, `_parse_timeline_rows`)

The entry regexes use `re.search`; the scanner tries a deterministic match at
every start position from the left.  At a fixed position the optional
`week`/`wk` prefix and each `greedy-star` piece are deterministic because the
adjacent character classes are disjoint, except for the final
`whitespace-star (.+) end`: when everything after the colon is whitespace the
engine backtracks one character so the group captures a single whitespace
character — its `strip()` is empty either way, so the label below is
`strip(rest)` with the position failing only when `rest` is empty. -/

structure TimelineRow where
  start : ℤ
  stop : ℤ
  label : String
deriving DecidableEq, Repr

/-- Drop an optional case-insensitive `week` or `wk` prefix.  (The two
alternatives can never both apply, and when either applies the empty
alternative dies immediately at the digit test, so this is exact.) -/
def dropWeekPrefix (l : List Char) : List Char :=
  match ciStrip ("week".data) l with
  | some r => r
  | none =>
    match ciStrip ("wk".data) l with
    | some r => r
    | none => l

/-- Match the range pattern at the head: optional week-prefix, digits, dash,
digits, colon, label. -/
def matchRangeAt (l : List Char) : Option (ℕ × ℕ × String) :=
  let l1 := (dropWeekPrefix l).dropWhile isSpaceChar
  let ds1 := l1.takeWhile Char.isDigit
  let l2 := (l1.dropWhile Char.isDigit).dropWhile isSpaceChar
  if ds1.isEmpty then none
  else
    match l2 with
    | c :: l3 =>
      if c = '-' then
        let l4 := l3.dropWhile isSpaceChar
        let ds2 := l4.takeWhile Char.isDigit
        let l5 := (l4.dropWhile Char.isDigit).dropWhile isSpaceChar
        if ds2.isEmpty then none
        else
          match l5 with
          | d :: rest =>
            if d = ':' then
              if rest.isEmpty then none
              else some (natOfDigits ds1, natOfDigits ds2, ⟨trimList rest⟩)
            else none
          | [] => none
      else none
    | [] => none

/-- Match the point pattern at the head: optional week-prefix, digits, colon,
label. -/
def matchPointAt (l : List Char) : Option (ℕ × String) :=
  let l1 := (dropWeekPrefix l).dropWhile isSpaceChar
  let ds := l1.takeWhile Char.isDigit
  let l2 := (l1.dropWhile Char.isDigit).dropWhile isSpaceChar
  if ds.isEmpty then none
  else
    match l2 with
    | d :: rest =>
      if d = ':' then
        if rest.isEmpty then none
        else some (natOfDigits ds, ⟨trimList rest⟩)
      else none
    | [] => none

def searchRange : List Char → Option (ℕ × ℕ × String)
  | [] => none
  | c :: t =>
    match matchRangeAt (c :: t) with
    | some r => some r
    | none => searchRange t

def searchPoint : List Char → Option (ℕ × String)
  | [] => none
  | c :: t =>
    match matchPointAt (c :: t) with
    | some r => some r
    | none => searchPoint t

/-- `_parse_timeline_entry` of the source. -/
def parse_timeline_entry (entry : String) : Option TimelineRow :=
  match searchRange entry.data with
  | some (s, e, lab) => some ⟨(s : ℤ), (e : ℤ), lab⟩
  | none =>
    match searchPoint entry.data with
    | some (p, lab) => some ⟨(p : ℤ), (p : ℤ), lab⟩
    | none => none

/-- Strip a `- ` or `* ` bullet marker (marker plus one-or-more whitespace);
`None` when the line is not a bullet entry. -/
def bulletRest (l : List Char) : Option (List Char) :=
  match l with
  | c :: t =>
    if c = '-' || c = '*' then
      match t with
      | d :: _ =>
        if isSpaceChar d then some (t.dropWhile isSpaceChar) else none
      | [] => none
    else none
  | [] => none

/-- `_parse_timeline_rows` of the source. -/
def parse_timeline_rows (content : String) : List TimelineRow :=
  (contentLines content).filterMap (fun raw =>
    (bulletRest (trimList raw)).bind (fun e => parse_timeline_entry ⟨e⟩))

/-! ### Gantt geometry (`_timeline_span`, `_render_gantt_row`) -/

/-- Python `min` over the starts of a nonempty row list (0 junk value on `[]`;
the code guards every call site). -/
def minStartOf (rows : List TimelineRow) : ℤ :=
  match rows with
  | [] => 0
  | r :: t => t.foldl (fun m x => min m x.start) r.start

/-- Python `max` over the ends (same convention). -/
def maxEndOf (rows : List TimelineRow) : ℤ :=
  match rows with
  | [] => 0
  | r :: t => t.foldl (fun m x => max m x.stop) r.stop

/-- `_timeline_span` of the source: `(min_start, span)`. -/
def timeline_span (rows : List TimelineRow) : ℤ × ℤ :=
  (minStartOf rows, max 1 (maxEndOf rows - minStartOf rows + 1))

/-- Offset percentage of a bar (exact value, before formatting). -/
def ganttOffset (row : TimelineRow) (min_start span : ℤ) : ℚ :=
  (((row.start - min_start : ℤ) : ℚ) / (span : ℚ)) * 100

/-- Width percentage of a bar (exact value, before formatting). -/
def ganttWidth (row : TimelineRow) (span : ℤ) : ℚ :=
  (((row.stop - row.start + 1 : ℤ) : ℚ) / (span : ℚ)) * 100

def gantt_bar_style (row : TimelineRow) (min_start span : ℤ) : String :=
  "margin-left:" ++ formatFixed2 (ganttOffset row min_start span)
    ++ "%;width:" ++ formatFixed2 (ganttWidth row span) ++ "%;"

def gantt_label_html (row : TimelineRow) : String :=
  escape_html row.label ++ " <span class=\"muted\">(W" ++ intStr row.start
    ++ "-W" ++ intStr row.stop ++ ")</span>"

/-- `_render_gantt_row` of the source.  (Rational division is total where
Python would raise `ZeroDivisionError` on `span = 0`; the `E`-variant below
tracks that raise point.) -/
def render_gantt_row (row : TimelineRow) (min_start span : ℤ) : String :=
  "<div class=\"gantt-row\">"
    ++ "<div class=\"gantt-label\">" ++ gantt_label_html row ++ "</div>"
    ++ "<div class=\"gantt-track\">"
    ++ "<div class=\"gantt-bar\" style=\"" ++ gantt_bar_style row min_start span
    ++ "\"></div>"
    ++ "</div>"
    ++ "</div>"

def render_rows : List TimelineRow → ℤ → ℤ → String
  | [], _, _ => ""
  | r :: t, a, s => render_gantt_row r a s ++ render_rows t a s

/-- `_build_timeline_gantt` of the source. -/
def build_timeline_gantt (content : String) : String :=
  match parse_timeline_rows content with
  | [] => ""
  | r :: t =>
    let ms := timeline_span (r :: t)
    "<div class=\"sow-gantt\"><h4>Gantt View</h4>"
      ++ render_rows (r :: t) ms.1 ms.2 ++ "</div>"

/-! Exception-tracking variants: the error cases sit exactly at the Python
raise points (`min`/`max` of an empty sequence, division by zero). -/

def timeline_spanE (rows : List TimelineRow) : Except String (ℤ × ℤ) :=
  match rows with
  | [] => .error "min() arg is an empty sequence"
  | _ :: _ => .ok (timeline_span rows)

def render_gantt_rowE (row : TimelineRow) (min_start span : ℤ) :
    Except String String :=
  if span = 0 then .error "division by zero"
  else .ok (render_gantt_row row min_start span)

def render_rowsE : List TimelineRow → ℤ → ℤ → Except String String
  | [], _, _ => .ok ""
  | r :: t, a, s =>
    match render_gantt_rowE r a s with
    | .error e => .error e
    | .ok x =>
      match render_rowsE t a s with
      | .error e => .error e
      | .ok y => .ok (x ++ y)

def build_timeline_ganttE (content : String) : Except String String :=
  match parse_timeline_rows content with
  | [] => .ok ""
  | r :: t =>
    match timeline_spanE (r :: t) with
    | .error e => .error e
    | .ok ms =>
      match render_rowsE (r :: t) ms.1 ms.2 with
      | .error e => .error e
      | .ok body =>
        .ok ("<div class=\"sow-gantt\"><h4>Gantt View</h4>" ++ body ++ "</div>")

/-! ### Signature blocks (`_signature_blocks`, `_render_signature_line`,
`_build_sig_block`, `_render_signature_block`) -/

/-- `_signature_blocks` of the source. -/
def signature_blocks (content : String) : List (List String) :=
  (splitDashes (trimList content.data)).filterMap (fun sec =>
    let lines :=
      (((splitOnCharL '\n' sec).map trimList).filter
        (fun l => !l.isEmpty)).map (fun l => (⟨l⟩ : String))
    if lines.isEmpty then none else some lines)

/-- Label part of a `label: value` signature line (before the first colon). -/
def sigLabelOf (line : String) : String :=
  match splitFirstOn ':' line.data with
  | some p => strip ⟨p.1⟩
  | none => line

/-- Value part of a `label: value` signature line (after the first colon). -/
def sigValueOf (line : String) : String :=
  match splitFirstOn ':' line.data with
  | some p => strip ⟨p.2⟩
  | none => line

/-- `_render_signature_line` of the source. -/
def render_signature_line (line : String) : String :=
  if !(line.data.contains ':') then "  <p>" ++ escape_html line ++ "</p>\n"
  else
    "  <div class=\"sig-field\">"
      ++ "<span class=\"sig-label\">" ++ escape_html (sigLabelOf line) ++ ":</span> "
      ++ "<span class=\"sig-value\">" ++ escape_html (sigValueOf line) ++ "</span>"
      ++ "<div class=\"sig-line\"></div>"
      ++ "</div>\n"

/-- `_build_sig_block` of the source. -/
def build_sig_block (lines : List String) : String :=
  "<div class=\"sig-block\">\n"
    ++ String.join (lines.map render_signature_line) ++ "</div>\n"

/-- `_render_signature_block` of the source. -/
def render_signature_block (content : String) : String :=
  "<div class=\"sow-signatures\">\n"
    ++ String.join ((signature_blocks content).map build_sig_block) ++ "</div>"

/-! ### Variable substitution (`_substitute_variables`)

The placeholder regex is brace-brace, optional whitespace, one-or-more word
characters (the capture), optional whitespace, brace-brace.  Whitespace, word
characters and the closing brace are pairwise disjoint classes, so matching at
a fixed position is deterministic; `re.sub` takes the leftmost match and
resumes scanning after it. -/

def matchPlaceholderAt (l : List Char) : Option (List Char × String × List Char) :=
  match l with
  | c1 :: c2 :: t =>
    if c1 = '\x7b' && c2 = '\x7b' then
      let ws1 := t.takeWhile isSpaceChar
      let t1 := t.dropWhile isSpaceChar
      let ident := t1.takeWhile isWordChar
      let t2 := t1.dropWhile isWordChar
      if ident.isEmpty then none
      else
        let ws2 := t2.takeWhile isSpaceChar
        let t3 := t2.dropWhile isSpaceChar
        match t3 with
        | d1 :: d2 :: rest =>
          if d1 = '\x7d' && d2 = '\x7d' then
            some
              ('\x7b' :: '\x7b' :: (ws1 ++ ident ++ ws2 ++ ['\x7d', '\x7d']),
               ⟨ident⟩, rest)
          else none
        | _ => none
    else none
  | _ => none

/-- The substitution scan, with length fuel (each step consumes at least one
character, so fuel equal to the input length computes the full scan). -/
def subVarsFuel (vars : List (String × String)) : ℕ → List Char → List Char
  | 0, l => l
  | _ + 1, [] => []
  | n + 1, c :: t =>
    match matchPlaceholderAt (c :: t) with
    | some (m, key, rest) =>
      (match dictGet vars key with
       | some v => v.data
       | none => m) ++ subVarsFuel vars n rest
    | none => c :: subVarsFuel vars n t

/-- `_substitute_variables` of the source. -/
def substitute_variables (text : String) (vars : List (String × String)) : String :=
  ⟨subVarsFuel vars text.data.length text.data⟩

/-! ### Fenced directive regions

All directive patterns have the shape `colon-colon-colon name, whitespace-star,
newline, lazy content, newline colon-colon-colon` (`re.DOTALL`).  At a match
position, the greedy `whitespace-star` followed by a mandatory newline makes
the engine try each newline inside the maximal whitespace run, rightmost
first; for each such split the lazy content takes the first later occurrence
of `newline colon-colon-colon`.  `re.sub` replaces every non-overlapping
occurrence left to right, resuming after each replacement. -/

/-- First occurrence of `newline colon-colon-colon`: split `l` into the part
before it and the part after it (the lazy `(.*?)` plus closing delimiter). -/
def findCloseMark : List Char → Option (List Char × List Char)
  | [] => none
  | c :: t =>
    if c = '\n' && listStartsWith (':' :: ':' :: ':' :: []) t then
      some ([], t.drop 3)
    else (findCloseMark t).map (fun p => (c :: p.1, p.2))

/-- Try the candidate newline positions (rightmost first, regex greediness);
each candidate drops at least one character before the close-mark search. -/
def firstClose (l : List Char) : List ℕ → Option (List Char × List Char)
  | [] => none
  | j :: js =>
    match findCloseMark (l.drop (j + 1)) with
    | some p => some p
    | none => firstClose l js

/-- Given the text right after `colon-colon-colon name`, match
`whitespace-star newline (.*?) newline colon-colon-colon`, returning
`(content, rest-after-close)`. -/
def tryDirectiveRest (l : List Char) : Option (List Char × List Char) :=
  let ws := l.takeWhile isSpaceChar
  let js := ((List.range ws.length).filter
    (fun j => decide (l.get? j = some '\n'))).reverse
  firstClose l js

/-! ### Variables extraction (`_extract_variables_block`) -/

/-- Parse the body of a `variables` block: strip, split lines, strip each,
take the lines containing a colon as first-colon `key: value` pairs.  Pairs
are appended in encounter order; `dictGet`'s rightmost-wins lookup then
reproduces dict assignment overwrite. -/
def parseVarLines (content : List Char) : List (String × String) :=
  ((splitOnCharL '\n' (trimList content)).map trimList).filterMap (fun line =>
    (splitFirstOn ':' line).map (fun p =>
      ((⟨trimList p.1⟩ : String), (⟨trimList p.2⟩ : String))))

/-- The `variables`-block scan (regex
`colon-colon-colon variables whitespace-star newline (.*?) newline
colon-colon-colon`, global substitution with empty replacement), with length
fuel. -/
def scanVarsFuel : ℕ → List Char → List Char × List (String × String)
  | 0, l => (l, [])
  | _ + 1, [] => ([], [])
  | n + 1, c :: t =>
    if listStartsWith (":::variables".data) (c :: t) then
      match tryDirectiveRest ((c :: t).drop 12) with
      | some (content, rest) =>
        let p := scanVarsFuel n rest
        (p.1, parseVarLines content ++ p.2)
      | none =>
        let p := scanVarsFuel n t
        (c :: p.1, p.2)
    else
      let p := scanVarsFuel n t
      (c :: p.1, p.2)

/-- `_extract_variables_block` of the source. -/
def extract_variables_block (text : String) : String × List (String × String) :=
  let p := scanVarsFuel text.data.length text.data
  (⟨p.1⟩, p.2)

/-! ### Block dispatcher (`_process_custom_blocks`) -/

/-- `re.sub` scan for one directive name, with length fuel.  `render` is the
renderer applied to the captured content. -/
def scanDirFuel (nm : List Char) (render : String → String) :
    ℕ → List Char → List Char
  | 0, l => l
  | _ + 1, [] => []
  | n + 1, c :: t =>
    if listStartsWith (':' :: ':' :: ':' :: nm) (c :: t) then
      match tryDirectiveRest ((c :: t).drop (3 + nm.length)) with
      | some (content, rest) =>
        (render ⟨content⟩).data ++ scanDirFuel nm render n rest
      | none => c :: scanDirFuel nm render n t
    else c :: scanDirFuel nm render n t

/-- `_render_pricing_block` of the source (`md` is the external CommonMark
renderer used for the inner markdown). -/
def render_pricing_block (md : String → String) (content : String) : String :=
  "<div class=\"sow-pricing\">\n" ++ md content ++ "\n"
    ++ build_pricing_summary content ++ "\n</div>"

/-- `_render_timeline_block` of the source. -/
def render_timeline_block (md : String → String) (content : String) : String :=
  "<div class=\"sow-timeline\">\n<h3>Project Timeline</h3>\n" ++ md content
    ++ "\n" ++ build_timeline_gantt content ++ "\n</div>"

/-- `_process_custom_blocks` of the source: one global substitution pass per
directive type, in dict insertion order (pricing, timeline, signature). -/
def process_custom_blocks (md : String → String) (text : String) : String :=
  let t1 := scanDirFuel ("pricing".data) (render_pricing_block md)
    text.data.length text.data
  let t2 := scanDirFuel ("timeline".data) (render_timeline_block md)
    t1.length t1
  let t3 := scanDirFuel ("signature".data) render_signature_block
    t2.length t2
  ⟨t3⟩

/-- `render_markdown` of the source (the public pipeline): extract inline
variables, merge (explicit wins), substitute, dispatch custom blocks, and
hand the result to the external CommonMark renderer. -/
def render_markdown (md : String → String) (text : String)
    (vars : List (String × String) := []) : String :=
  let p := extract_variables_block text
  let merged_vars := p.2 ++ vars
  let substituted := substitute_variables p.1 merged_vars
  md (process_custom_blocks md substituted)

/-! Exception-tracking pipeline: `Except`-valued copy of the dispatcher whose
only fallible renderer is the timeline block (empty-sequence `min`/`max` and
zero-division are the Python raise points; everything else cannot raise). -/

def render_timeline_blockE (md : String → String) (content : String) :
    Except String String :=
  match build_timeline_ganttE content with
  | .error e => .error e
  | .ok gantt =>
    .ok ("<div class=\"sow-timeline\">\n<h3>Project Timeline</h3>\n"
      ++ md content ++ "\n" ++ gantt ++ "\n</div>")

def scanDirFuelE (nm : List Char) (render : String → Except String String) :
    ℕ → List Char → Except String (List Char)
  | 0, l => .ok l
  | _ + 1, [] => .ok []
  | n + 1, c :: t =>
    if listStartsWith (':' :: ':' :: ':' :: nm) (c :: t) then
      match tryDirectiveRest ((c :: t).drop (3 + nm.length)) with
      | some (content, rest) =>
        match render ⟨content⟩ with
        | .error e => .error e
        | .ok r =>
          match scanDirFuelE nm render n rest with
          | .error e => .error e
          | .ok tail => .ok (r.data ++ tail)
      | none =>
        match scanDirFuelE nm render n t with
        | .error e => .error e
        | .ok tail => .ok (c :: tail)
    else
      match scanDirFuelE nm render n t with
      | .error e => .error e
      | .ok tail => .ok (c :: tail)

def process_custom_blocksE (md : String → String) (text : String) :
    Except String String :=
  match scanDirFuelE ("pricing".data)
      (fun c => .ok (render_pricing_block md c)) text.data.length text.data with
  | .error e => .error e
  | .ok t1 =>
    match scanDirFuelE ("timeline".data) (render_timeline_blockE md)
        t1.length t1 with
    | .error e => .error e
    | .ok t2 =>
      match scanDirFuelE ("signature".data)
          (fun c => .ok (render_signature_block c)) t2.length t2 with
      | .error e => .error e
      | .ok t3 => .ok ⟨t3⟩

def render_markdownE (md : String → String) (text : String)
    (vars : List (String × String) := []) : Except String String :=
  let p := extract_variables_block text
  let merged_vars := p.2 ++ vars
  let substituted := substitute_variables p.1 merged_vars
  match process_custom_blocksE md substituted with
  | .error e => .error e
  | .ok processed => .ok (md processed)

/-! ### Claim-side definitions (worded from the specification claims, for
comparison with the source-side definitions above) -/

/-- Modelled from claim C6's wording: the contribution of one (stripped) line
to the subtotal — a line that contains a pipe, is not a separator row made
only of dash/colon/pipe/whitespace, has at least two non-empty cells, and
whose first cell does not contain `total` case-insensitively contributes the
money value parsed from its last cell, an unparseable last cell contributing
zero; every other line contributes nothing.  (As claimed — without the
discount/tax modifier exclusion; see the amended variant.) -/
def line_contribution_claim (line : String) : ℚ :=
  let l := line.data
  let cells := rowCells l
  if l.contains '|' && !is_separator_row l && decide (2 ≤ cells.length)
      && !listContainsSub ("total".data) ((cells.headD []).map Char.toLower) then
    (parse_money ⟨cells.getLastD []⟩).getD 0
  else 0

/-- Claim C6 amended: lines matched by the discount/tax modifier patterns are
additionally excluded from the sum. -/
def line_contribution_amended (line : String) : ℚ :=
  if (extract_percent line "discount").isSome
      || (extract_percent line "tax").isSome then 0
  else line_contribution_claim line

/-- Subtotal as claim C6 states it (sum of per-line contributions). -/
def subtotal_claimed (content : String) : ℚ :=
  ((contentLines content).map (fun raw => line_contribution_claim ⟨trimList raw⟩)).sum

/-- Subtotal under the amended claim C6. -/
def subtotal_amended (content : String) : ℚ :=
  ((contentLines content).map (fun raw => line_contribution_amended ⟨trimList raw⟩)).sum

/-- Modelled from claim C2's wording: `(subtotal, discount_amount,
tax_amount, grand_total)` with the discount applied to the raw subtotal and
the tax applied to the discounted amount. -/
def pricing_totals_claim (content : String) : ℚ × ℚ × ℚ × ℚ :=
  let subtotal := (summarize_pricing_values content).1
  let discount_pct := (summarize_pricing_values content).2.1
  let tax_pct := (summarize_pricing_values content).2.2
  let discount_amount := subtotal * discount_pct / 100
  let discounted := subtotal - discount_amount
  let tax_amount := discounted * tax_pct / 100
  (subtotal, discount_amount, tax_amount, discounted + tax_amount)

/-- The characters claim C1 singles out. -/
def dangerous_chars : List Char := ['<', '>', '&', '"', '\x27']

/-- Does the text contain one of the characters claim C1 singles out? -/
def has_dangerous (s : String) : Bool :=
  s.data.any (fun c => dangerous_chars.contains c)

/-! ### Concrete documents used by the claims -/

/-- Identity stand-in for the external CommonMark renderer in closed
statements (the spec requires it to pass the directive renderers' raw HTML
through unchanged). -/
def idMd : String → String := fun s => s

def pricing_example : String :=
  "| Item | Cost |\n|------|------|\n| Discovery | $200 |\n| Build | $300 |\nDiscount: 10%\nTax: 8%"

def timeline_example : String := "- Week 1-2: Discovery\n- Week 3-5: Build"

def c3_document : String :=
  ":::variables\nclient_name: Inline Corp\n:::\n\nHello \x7b\x7bclient_name\x7d\x7d."

def c5_midline_text : String := "ab:::pricing\n| x | 5 |\n:::cd"

def c6_modifier_line : String := "Discount: 10% | x | 5"

def c1_document : String := ":::signature\nName: <span class=\"sig-value\">\n:::"

def sig_template_payload : String := "Name: <span class=\"sig-value\">"

def script_payload_line : String := "Signed: <script>alert(1)</script>"

def img_payload_row : TimelineRow := ⟨1, 2, "<img src=x onerror=alert(1)>"⟩

def c8_unknown_doc : String := ":::mystery\ncontent here\n:::"

def c8_unterminated : String := ":::pricing\n| a | 5"

/-! ## Helper lemmas -/

/-- Dropping a while-prefix never lengthens a list. -/
theorem dropWhile_len_le (p : Char → Bool) (l : List Char) :
    (l.dropWhile p).length ≤ l.length := by
  induction l with
  | nil => simp
  | cons c t ih =>
    by_cases hp : p c
    · rw [List.dropWhile_cons, if_pos hp]
      exact Nat.le_trans ih (Nat.le_succ _)
    · rw [List.dropWhile_cons, if_neg hp]

/-- On a successful placeholder match the remainder is at least four
characters shorter than the input (the two brace pairs are consumed). -/
theorem matchPlaceholderAt_length {l m rest : List Char} {k : String}
    (h : matchPlaceholderAt l = some (m, k, rest)) :
    rest.length + 4 ≤ l.length := by
  unfold matchPlaceholderAt at h
  split at h
  next c1 c2 t =>
    split at h
    · dsimp only at h
      split at h
      · exact absurd h (by simp)
      · split at h
        next d1 d2 r heq =>
          split at h
          · simp only [Option.some.injEq, Prod.mk.injEq] at h
            obtain ⟨-, -, hr⟩ := h
            subst hr
            have h1 : (d1 :: d2 :: r).length ≤
                ((t.dropWhile isSpaceChar).dropWhile isWordChar).length := by
              rw [← heq]; exact dropWhile_len_le _ _
            have h2 : ((t.dropWhile isSpaceChar).dropWhile isWordChar).length ≤
                (t.dropWhile isSpaceChar).length := dropWhile_len_le _ _
            have h4 : (t.dropWhile isSpaceChar).length ≤ t.length :=
              dropWhile_len_le _ _
            simp only [List.length_cons] at h1 ⊢
            omega
          · exact absurd h (by simp)
        next heq2 => exact absurd h (by simp)
    · exact absurd h (by simp)
  next => exact absurd h (by simp)

theorem listStartsWith_length {pre l : List Char}
    (h : listStartsWith pre l = true) : pre.length ≤ l.length := by
  induction pre generalizing l with
  | nil => simp
  | cons p ps ih =>
    match l with
    | [] => exact absurd h (by simp [listStartsWith])
    | c :: t =>
      simp only [listStartsWith, Bool.and_eq_true] at h
      simpa using Nat.succ_le_succ (ih h.2)

theorem findCloseMark_length {l co rest : List Char}
    (h : findCloseMark l = some (co, rest)) :
    rest.length + 4 ≤ l.length := by
  induction l generalizing co rest with
  | nil => exact absurd h (by simp [findCloseMark])
  | cons c t ih =>
    unfold findCloseMark at h
    split at h
    next hc =>
      simp only [Option.some.injEq, Prod.mk.injEq] at h
      obtain ⟨-, hr⟩ := h
      subst hr
      have h3 : 3 ≤ t.length :=
        listStartsWith_length (Bool.and_elim_right hc)
      simp only [List.length_drop, List.length_cons]
      omega
    next =>
      match hm : findCloseMark t with
      | none => rw [hm] at h; exact absurd h (by simp)
      | some (co', rest') =>
        rw [hm] at h
        simp only [Option.map_some', Option.some.injEq, Prod.mk.injEq] at h
        obtain ⟨-, hr⟩ := h
        subst hr
        have := ih hm
        simp only [List.length_cons]
        omega

theorem firstClose_length {l co rest : List Char} {js : List ℕ}
    (h : firstClose l js = some (co, rest)) :
    rest.length + 4 ≤ l.length := by
  induction js with
  | nil => exact absurd h (by simp [firstClose])
  | cons j js ih =>
    unfold firstClose at h
    match hm : findCloseMark (l.drop (j + 1)) with
    | some p =>
      rw [hm] at h
      simp only [Option.some.injEq] at h
      have hlen := findCloseMark_length (hm.trans (congrArg some h))
      have hd : (l.drop (j + 1)).length ≤ l.length := by
        simp [List.length_drop]
      omega
    | none => rw [hm] at h; exact ih h

theorem tryDirectiveRest_length {l co rest : List Char}
    (h : tryDirectiveRest l = some (co, rest)) :
    rest.length + 4 ≤ l.length := by
  unfold tryDirectiveRest at h
  exact firstClose_length h

theorem str_data_append (s t : String) : (s ++ t).data = s.data ++ t.data := rfl

theorem listContainsSub_nil (l : List Char) : listContainsSub [] l = true := by
  induction l <;> simp [listContainsSub, listStartsWith, *]

theorem listStartsWith_append_self (pat b : List Char) :
    listStartsWith pat (pat ++ b) = true := by
  induction pat <;> simp [listStartsWith, *]

theorem listContainsSub_atFront (pat b : List Char) :
    listContainsSub pat (pat ++ b) = true := by
  cases pat with
  | nil => exact listContainsSub_nil _
  | cons p ps =>
    have hs : listStartsWith (p :: ps) ((p :: ps) ++ b) = true :=
      listStartsWith_append_self _ _
    rw [List.cons_append] at hs
    simp [listContainsSub, hs]

theorem listContainsSub_append_left (pat a b : List Char)
    (h : listContainsSub pat b = true) :
    listContainsSub pat (a ++ b) = true := by
  induction a with
  | nil => simpa
  | cons x a ih => simp [listContainsSub, ih]

theorem escChar_no_dangerous (x c : Char) (hc : c ∈ escChar x) :
    c ≠ '<' ∧ c ≠ '>' ∧ c ≠ '"' ∧ c ≠ '\x27' := by
  unfold escChar at hc
  split_ifs at hc with h1 h2 h3 h4 h5
  · have hd : "&amp;".data = ['&', 'a', 'm', 'p', ';'] := rfl
    rw [hd] at hc
    fin_cases hc <;> refine ⟨by decide, by decide, by decide, by decide⟩
  · have hd : "&lt;".data = ['&', 'l', 't', ';'] := rfl
    rw [hd] at hc
    fin_cases hc <;> refine ⟨by decide, by decide, by decide, by decide⟩
  · have hd : "&gt;".data = ['&', 'g', 't', ';'] := rfl
    rw [hd] at hc
    fin_cases hc <;> refine ⟨by decide, by decide, by decide, by decide⟩
  · have hd : "&quot;".data = ['&', 'q', 'u', 'o', 't', ';'] := rfl
    rw [hd] at hc
    fin_cases hc <;> refine ⟨by decide, by decide, by decide, by decide⟩
  · have hd : "&#x27;".data = ['&', '#', 'x', '2', '7', ';'] := rfl
    rw [hd] at hc
    fin_cases hc <;> refine ⟨by decide, by decide, by decide, by decide⟩
  · rw [List.mem_singleton] at hc
    subst hc
    exact ⟨h2, h3, h4, h5⟩

theorem escapeList_no_dangerous (l : List Char) :
    ∀ c ∈ escapeList l, c ≠ '<' ∧ c ≠ '>' ∧ c ≠ '"' ∧ c ≠ '\x27' := by
  intro c hc
  unfold escapeList at hc
  rw [List.mem_flatten] at hc
  obtain ⟨sub, hsub, hcs⟩ := hc
  rw [List.mem_map] at hsub
  obtain ⟨x, -, hx⟩ := hsub
  exact escChar_no_dangerous x c (hx ▸ hcs)

theorem takeWhile_append_all (p : Char → Bool) (l1 l2 : List Char)
    (h1 : ∀ a ∈ l1, p a = true)
    (h2 : ∀ x, l2.head? = some x → p x = false) :
    (l1 ++ l2).takeWhile p = l1 := by
  induction l1 with
  | nil =>
    cases l2 with
    | nil => rfl
    | cons x t => simp [List.takeWhile_cons, h2 x rfl]
  | cons a l1 ih =>
    have ha : p a = true := h1 a (List.mem_cons_self _ _)
    simp [List.takeWhile_cons, ha,
      ih (fun b hb => h1 b (List.mem_cons_of_mem _ hb))]

theorem dropWhile_append_all (p : Char → Bool) (l1 l2 : List Char)
    (h1 : ∀ a ∈ l1, p a = true)
    (h2 : ∀ x, l2.head? = some x → p x = false) :
    (l1 ++ l2).dropWhile p = l2 := by
  induction l1 with
  | nil =>
    cases l2 with
    | nil => rfl
    | cons x t => simp [List.dropWhile_cons, h2 x rfl]
  | cons a l1 ih =>
    have ha : p a = true := h1 a (List.mem_cons_self _ _)
    simp [List.dropWhile_cons, ha,
      ih (fun b hb => h1 b (List.mem_cons_of_mem _ hb))]

theorem space_not_word {c : Char} (h : isSpaceChar c = true) :
    isWordChar c = false := by
  simp only [isSpaceChar, Bool.or_eq_true, decide_eq_true_eq] at h
  obtain ((((h | h) | h) | h) | h) | h := h <;> subst h <;> decide

theorem word_of_not_space {c : Char} (h : isWordChar c = true) :
    isSpaceChar c = false := by
  cases hs : isSpaceChar c with
  | false => rfl
  | true => rw [space_not_word hs] at h; exact absurd h (by simp)

theorem matchPlaceholderAt_not_brace {c : Char} {t : List Char}
    (h : c ≠ '\x7b') : matchPlaceholderAt (c :: t) = none := by
  unfold matchPlaceholderAt
  cases t with
  | nil => rfl
  | cons c2 t2 => simp [h]

theorem subVarsFuel_congr (vars : List (String × String)) :
    ∀ n m (l : List Char), l.length ≤ n → l.length ≤ m →
      subVarsFuel vars n l = subVarsFuel vars m l := by
  intro n
  induction n with
  | zero =>
    intro m l hn _
    have h0 : l = [] := List.length_eq_zero.mp (Nat.le_zero.mp hn)
    subst h0
    cases m <;> rfl
  | succ n ih =>
    intro m l hn hm
    cases l with
    | nil => cases m <;> rfl
    | cons c t =>
      cases m with
      | zero => exact absurd hm (by simp)
      | succ m =>
        simp only [subVarsFuel]
        cases hmm : matchPlaceholderAt (c :: t) with
        | some r =>
          obtain ⟨mm, key, rest⟩ := r
          have hr := matchPlaceholderAt_length hmm
          simp only [List.length_cons] at hn hm hr
          dsimp only
          congr 1
          exact ih m rest (by omega) (by omega)
        | none =>
          simp only [List.length_cons] at hn hm
          dsimp only
          congr 1
          exact ih m t (by omega) (by omega)

theorem subVarsFuel_no_brace (vars : List (String × String)) :
    ∀ n (l : List Char), l.length ≤ n → (∀ c ∈ l, c ≠ '\x7b') →
      subVarsFuel vars n l = l := by
  intro n
  induction n with
  | zero =>
    intro l hn _
    have h0 : l = [] := List.length_eq_zero.mp (Nat.le_zero.mp hn)
    subst h0; rfl
  | succ n ih =>
    intro l hn hb
    cases l with
    | nil => rfl
    | cons c t =>
      have hc : c ≠ '\x7b' := hb c (List.mem_cons_self _ _)
      simp only [subVarsFuel, matchPlaceholderAt_not_brace hc]
      simp only [List.length_cons] at hn
      rw [ih t (by omega) (fun x hx => hb x (List.mem_cons_of_mem _ hx))]

theorem matchPlaceholderAt_placeholder
    (ws1 ident ws2 post : List Char)
    (hws1 : ∀ c ∈ ws1, isSpaceChar c = true)
    (hid : ident ≠ [])
    (hidw : ∀ c ∈ ident, isWordChar c = true)
    (hws2 : ∀ c ∈ ws2, isSpaceChar c = true) :
    matchPlaceholderAt
      ('\x7b' :: '\x7b' :: (ws1 ++ (ident ++ (ws2 ++ ('\x7d' :: '\x7d' :: post)))))
      = some ('\x7b' :: '\x7b' :: (ws1 ++ ident ++ ws2 ++ ['\x7d', '\x7d']),
          (⟨ident⟩ : String), post) := by
  unfold matchPlaceholderAt
  have hhead1 : ∀ x, (ident ++ (ws2 ++ ('\x7d' :: '\x7d' :: post))).head? = some x →
      isSpaceChar x = false := by
    intro x hx
    cases ident with
    | nil => exact absurd rfl hid
    | cons i0 irest =>
      simp only [List.cons_append, List.head?_cons, Option.some.injEq] at hx
      subst hx
      exact word_of_not_space (hidw i0 (List.mem_cons_self _ _))
  have htake1 : (ws1 ++ (ident ++ (ws2 ++ ('\x7d' :: '\x7d' :: post)))).takeWhile
      isSpaceChar = ws1 := takeWhile_append_all _ _ _ hws1 hhead1
  have hdrop1 : (ws1 ++ (ident ++ (ws2 ++ ('\x7d' :: '\x7d' :: post)))).dropWhile
      isSpaceChar = ident ++ (ws2 ++ ('\x7d' :: '\x7d' :: post)) :=
    dropWhile_append_all _ _ _ hws1 hhead1
  have hhead2 : ∀ x, (ws2 ++ ('\x7d' :: '\x7d' :: post)).head? = some x →
      isWordChar x = false := by
    intro x hx
    cases ws2 with
    | nil =>
      simp only [List.nil_append, List.head?_cons, Option.some.injEq] at hx
      subst hx; decide
    | cons w0 wrest =>
      simp only [List.cons_append, List.head?_cons, Option.some.injEq] at hx
      subst hx
      exact space_not_word (hws2 w0 (List.mem_cons_self _ _))
  have htake2 : (ident ++ (ws2 ++ ('\x7d' :: '\x7d' :: post))).takeWhile
      isWordChar = ident := takeWhile_append_all _ _ _ hidw hhead2
  have hdrop2 : (ident ++ (ws2 ++ ('\x7d' :: '\x7d' :: post))).dropWhile
      isWordChar = ws2 ++ ('\x7d' :: '\x7d' :: post) :=
    dropWhile_append_all _ _ _ hidw hhead2
  have hhead3 : ∀ x, (('\x7d' :: '\x7d' :: post) : List Char).head? = some x →
      isSpaceChar x = false := by
    intro x hx
    simp only [List.head?_cons, Option.some.injEq] at hx
    subst hx; decide
  have htake3 : (ws2 ++ ('\x7d' :: '\x7d' :: post)).takeWhile isSpaceChar = ws2 :=
    takeWhile_append_all _ _ _ hws2 hhead3
  have hdrop3 : (ws2 ++ ('\x7d' :: '\x7d' :: post)).dropWhile isSpaceChar =
      '\x7d' :: '\x7d' :: post := dropWhile_append_all _ _ _ hws2 hhead3
  simp only [htake1, hdrop1, htake2, hdrop2, htake3, hdrop3]
  have hne : ident.isEmpty = false := by
    cases ident with
    | nil => exact absurd rfl hid
    | cons i0 irest => rfl
  simp [hne, List.append_assoc]

theorem subVarsFuel_placeholder (vars : List (String × String))
    (ws1 ident ws2 post : List Char) (n : ℕ)
    (hws1 : ∀ c ∈ ws1, isSpaceChar c = true)
    (hid : ident ≠ [])
    (hidw : ∀ c ∈ ident, isWordChar c = true)
    (hws2 : ∀ c ∈ ws2, isSpaceChar c = true)
    (hn : ('\x7b' :: '\x7b' ::
      (ws1 ++ (ident ++ (ws2 ++ ('\x7d' :: '\x7d' :: post))))).length ≤ n) :
    subVarsFuel vars n
      ('\x7b' :: '\x7b' :: (ws1 ++ (ident ++ (ws2 ++ ('\x7d' :: '\x7d' :: post)))))
      = (match dictGet vars (⟨ident⟩ : String) with
         | some v => v.data
         | none => '\x7b' :: '\x7b' :: (ws1 ++ ident ++ ws2 ++ ['\x7d', '\x7d']))
        ++ subVarsFuel vars post.length post := by
  cases n with
  | zero => exact absurd hn (by simp)
  | succ n =>
    simp only [subVarsFuel,
      matchPlaceholderAt_placeholder ws1 ident ws2 post hws1 hid hidw hws2]
    simp only [List.length_cons, List.length_append] at hn
    congr 1
    exact subVarsFuel_congr vars n post.length post (by omega) (by omega)

theorem subVarsFuel_passthrough (vars : List (String × String)) :
    ∀ n (pre l : List Char), (∀ c ∈ pre, c ≠ '\x7b') →
      (pre ++ l).length ≤ n →
      subVarsFuel vars n (pre ++ l) = pre ++ subVarsFuel vars l.length l := by
  intro n
  induction n with
  | zero =>
    intro pre l _ hn
    have h0 : pre ++ l = [] := List.length_eq_zero.mp (Nat.le_zero.mp hn)
    rcases List.append_eq_nil.mp h0 with ⟨h1, h2⟩
    subst h1; subst h2; rfl
  | succ n ih =>
    intro pre l hpre hn
    cases pre with
    | nil =>
      simp only [List.nil_append]
      exact subVarsFuel_congr vars (n + 1) l.length l (by simpa using hn) le_rfl
    | cons c pre =>
      have hc : c ≠ '\x7b' := hpre c (List.mem_cons_self _ _)
      simp only [List.cons_append, subVarsFuel, matchPlaceholderAt_not_brace hc]
      simp only [List.length_cons, List.length_append] at hn
      simp only [List.append_eq]
      rw [ih pre l (fun x hx => hpre x (List.mem_cons_of_mem _ hx))
        (by simp [List.length_append]; omega)]

theorem listContainsSub_tail {pat : List Char} {c : Char} {t : List Char}
    (h : listContainsSub pat t = true) : listContainsSub pat (c :: t) = true := by
  simp [listContainsSub, h]

theorem listContainsSub_drop (pat : List Char) :
    ∀ (k : ℕ) (l : List Char), listContainsSub pat (l.drop k) = true →
      listContainsSub pat l = true := by
  intro k
  induction k with
  | zero => intro l h; simpa using h
  | succ k ih =>
    intro l h
    cases l with
    | nil => simpa using h
    | cons c t =>
      rw [List.drop_succ_cons] at h
      exact listContainsSub_tail (ih t h)

theorem findCloseMark_contains {l co rest : List Char}
    (h : findCloseMark l = some (co, rest)) :
    listContainsSub ('\n' :: ':' :: ':' :: ':' :: []) l = true := by
  induction l generalizing co rest with
  | nil => exact absurd h (by simp [findCloseMark])
  | cons c t ih =>
    unfold findCloseMark at h
    split at h
    next hc =>
      have hcc : c = '\n' := by
        have h1 := Bool.and_elim_left hc
        simpa using h1
      have hst : listStartsWith (':' :: ':' :: ':' :: []) t = true :=
        Bool.and_elim_right hc
      subst hcc
      simp [listContainsSub, listStartsWith, hst]
    next =>
      match hm : findCloseMark t with
      | none => rw [hm] at h; exact absurd h (by simp)
      | some (co2, r2) => exact listContainsSub_tail (ih hm)

theorem firstClose_contains {l co rest : List Char} {js : List ℕ}
    (h : firstClose l js = some (co, rest)) :
    listContainsSub ('\n' :: ':' :: ':' :: ':' :: []) l = true := by
  induction js with
  | nil => exact absurd h (by simp [firstClose])
  | cons j js ih =>
    unfold firstClose at h
    match hm : findCloseMark (l.drop (j + 1)) with
    | some p =>
      obtain ⟨co2, r2⟩ := p
      exact listContainsSub_drop _ (j + 1) l (findCloseMark_contains hm)
    | none => rw [hm] at h; exact ih h

theorem tryDirectiveRest_contains {l co rest : List Char}
    (h : tryDirectiveRest l = some (co, rest)) :
    listContainsSub ('\n' :: ':' :: ':' :: ':' :: []) l = true := by
  unfold tryDirectiveRest at h
  exact firstClose_contains h

theorem scanDirFuel_no_close (nm : List Char) (render : String → String) :
    ∀ n (l : List Char),
      listContainsSub ('\n' :: ':' :: ':' :: ':' :: []) l = false →
      scanDirFuel nm render n l = l := by
  intro n
  induction n with
  | zero => intro l _; rfl
  | succ n ih =>
    intro l hl
    cases l with
    | nil => rfl
    | cons c t =>
      have hl2 : listContainsSub ('\n' :: ':' :: ':' :: ':' :: []) t = false := by
        have := hl
        unfold listContainsSub at this
        exact (Bool.or_eq_false_iff.mp this).2
      by_cases hs : listStartsWith (':' :: ':' :: ':' :: nm) (c :: t) = true
      · rw [scanDirFuel, if_pos hs]
        match hm : tryDirectiveRest ((c :: t).drop (3 + nm.length)) with
        | some (content, rest) =>
          have := listContainsSub_drop _ (3 + nm.length) (c :: t)
            (tryDirectiveRest_contains hm)
          rw [this] at hl
          exact absurd hl (by simp)
        | none => rw [ih t hl2]
      · rw [scanDirFuel, if_neg hs, ih t hl2]

theorem scanDirFuel_no_marker (nm : List Char) (render : String → String) :
    ∀ n (l : List Char),
      listContainsSub (':' :: ':' :: ':' :: nm) l = false →
      scanDirFuel nm render n l = l := by
  intro n
  induction n with
  | zero => intro l _; rfl
  | succ n ih =>
    intro l hl
    cases l with
    | nil => rfl
    | cons c t =>
      have hparts := Bool.or_eq_false_iff.mp (by
        have := hl; unfold listContainsSub at this; exact this)
      rw [scanDirFuel, if_neg (by simp [hparts.1]), ih t hparts.2]

theorem scanVarsFuel_no_marker :
    ∀ n (l : List Char),
      listContainsSub (":::variables".data) l = false →
      scanVarsFuel n l = (l, []) := by
  intro n
  induction n with
  | zero => intro l _; rfl
  | succ n ih =>
    intro l hl
    cases l with
    | nil => rfl
    | cons c t =>
      have hparts := Bool.or_eq_false_iff.mp (by
        have := hl; unfold listContainsSub at this; exact this)
      rw [scanVarsFuel, if_neg (by simp [hparts.1])]
      simp only [ih t hparts.2]

theorem process_custom_blocks_no_close (md : String → String) (text : String)
    (h : str_contains text "\n:::" = false) :
    process_custom_blocks md text = text := by
  have hd : ("\n:::" : String).data = '\n' :: ':' :: ':' :: ':' :: [] := rfl
  unfold str_contains at h
  rw [hd] at h
  unfold process_custom_blocks
  dsimp only
  rw [scanDirFuel_no_close _ _ _ _ h, scanDirFuel_no_close _ _ _ _ h,
    scanDirFuel_no_close _ _ _ _ h]

theorem process_custom_blocks_no_markers (md : String → String) (text : String)
    (h1 : str_contains text ":::pricing" = false)
    (h2 : str_contains text ":::timeline" = false)
    (h3 : str_contains text ":::signature" = false) :
    process_custom_blocks md text = text := by
  unfold str_contains at h1 h2 h3
  unfold process_custom_blocks
  dsimp only
  rw [scanDirFuel_no_marker _ _ _ _ h1, scanDirFuel_no_marker _ _ _ _ h2,
    scanDirFuel_no_marker _ _ _ _ h3]

theorem timeline_span_pos (rows : List TimelineRow) :
    1 ≤ (timeline_span rows).2 := le_max_left _ _

theorem render_rowsE_ok (rows : List TimelineRow) (a s : ℤ) (hs : s ≠ 0) :
    render_rowsE rows a s = .ok (render_rows rows a s) := by
  induction rows with
  | nil => rfl
  | cons r t ih =>
    unfold render_rowsE render_rows render_gantt_rowE
    rw [if_neg hs, ih]

theorem build_timeline_ganttE_ok (content : String) :
    build_timeline_ganttE content = .ok (build_timeline_gantt content) := by
  unfold build_timeline_ganttE build_timeline_gantt
  match hr : parse_timeline_rows content with
  | [] => rfl
  | r :: t =>
    have hs : (timeline_span (r :: t)).2 ≠ 0 := by
      have h1 := timeline_span_pos (r :: t); omega
    unfold timeline_spanE
    dsimp only
    rw [render_rowsE_ok _ _ _ hs]

theorem render_timeline_blockE_ok (md : String → String) (content : String) :
    render_timeline_blockE md content = .ok (render_timeline_block md content) := by
  unfold render_timeline_blockE render_timeline_block
  rw [build_timeline_ganttE_ok]

theorem scanDirFuelE_ok (nm : List Char)
    (renderE : String → Except String String) (render : String → String)
    (hr : ∀ s, renderE s = .ok (render s)) :
    ∀ n (l : List Char),
      scanDirFuelE nm renderE n l = .ok (scanDirFuel nm render n l) := by
  intro n
  induction n with
  | zero => intro l; rfl
  | succ n ih =>
    intro l
    cases l with
    | nil => rfl
    | cons c t =>
      by_cases hs : listStartsWith (':' :: ':' :: ':' :: nm) (c :: t) = true
      · simp only [scanDirFuelE, scanDirFuel, if_pos hs]
        match hm : tryDirectiveRest ((c :: t).drop (3 + nm.length)) with
        | some (content, rest) =>
          dsimp only
          rw [hr ⟨content⟩, ih rest]
        | none =>
          dsimp only
          rw [ih t]
      · simp only [scanDirFuelE, scanDirFuel, if_neg hs]
        rw [ih t]

theorem process_custom_blocksE_ok (md : String → String) (text : String) :
    process_custom_blocksE md text = .ok (process_custom_blocks md text) := by
  unfold process_custom_blocksE process_custom_blocks
  dsimp only
  rw [scanDirFuelE_ok _ _ (render_pricing_block md) (fun s => rfl)]
  dsimp only
  rw [scanDirFuelE_ok _ _ (render_timeline_block md) (render_timeline_blockE_ok md)]
  dsimp only
  rw [scanDirFuelE_ok _ _ render_signature_block (fun s => rfl)]

theorem render_markdownE_ok (md : String → String) (text : String)
    (vars : List (String × String)) :
    render_markdownE md text vars = .ok (render_markdown md text vars) := by
  unfold render_markdownE render_markdown
  dsimp only
  rw [process_custom_blocksE_ok]

theorem line_contribution_eq (line : String) :
    line_contribution_claim line = (extract_table_amount line).getD 0 := by
  unfold line_contribution_claim extract_table_amount
  dsimp only
  cases hc : line.data.contains '|' with
  | false => simp [hc]
  | true =>
    cases hsep : is_separator_row line.data with
    | true => simp [hc, hsep]
    | false =>
      match hm : rowCells line.data with
      | [] => simp [hc, hsep, hm]
      | [c0] => simp [hc, hsep, hm]
      | c0 :: c1 :: rest =>
        cases htot : listContainsSub ("total".data) (c0.map Char.toLower) with
        | true => simp [hc, hsep, hm, htot]
        | false =>
          have hlen : 2 ≤ (c0 :: c1 :: rest).length := by
            simp only [List.length_cons]; omega
          simp [hc, hsep, hm, htot, hlen, List.getLastD_cons]
          obtain ⟨x, hx⟩ := Option.isSome_iff_exists.mp
            (List.getLast?_isSome.mpr (show (c1 :: rest) ≠ [] by simp))
          rw [hx]
          rfl

theorem pricing_foldl_subtotal :
    ∀ (ls : List (List Char)) (acc : ℚ × ℚ × ℚ),
      (ls.foldl pricing_step acc).1
        = acc.1 + (ls.map
            (fun raw => line_contribution_amended ⟨trimList raw⟩)).sum := by
  intro ls
  induction ls with
  | nil => intro acc; simp
  | cons raw ls ih =>
    intro acc
    rw [List.foldl_cons, ih, List.map_cons, List.sum_cons]
    unfold pricing_step line_contribution_amended
    dsimp only
    match hd : extract_percent ⟨trimList raw⟩ "discount" with
    | some v => simp [hd]
    | none =>
      match ht : extract_percent ⟨trimList raw⟩ "tax" with
      | some v => simp [hd, ht]
      | none =>
        rw [line_contribution_eq]
        match ha : extract_table_amount ⟨trimList raw⟩ with
        | some a => simp [hd, ht, ha]; ring
        | none => simp [hd, ht, ha]

theorem subtotal_src_eq_amended (content : String) :
    (summarize_pricing_values content).1 = subtotal_amended content := by
  unfold summarize_pricing_values subtotal_amended
  rw [pricing_foldl_subtotal]
  simp

theorem foldl_min_le_init (t : List TimelineRow) :
    ∀ a : ℤ, t.foldl (fun m x => min m x.start) a ≤ a := by
  induction t with
  | nil => intro a; exact le_rfl
  | cons x t ih =>
    intro a
    rw [List.foldl_cons]
    exact le_trans (ih (min a x.start)) (min_le_left _ _)

theorem foldl_min_le_mem (t : List TimelineRow) :
    ∀ (a : ℤ) (r : TimelineRow), r ∈ t →
      t.foldl (fun m x => min m x.start) a ≤ r.start := by
  induction t with
  | nil => intro a r hr; exact absurd hr (List.not_mem_nil _)
  | cons x t ih =>
    intro a r hr
    rw [List.foldl_cons]
    rcases List.mem_cons.mp hr with h | h
    · subst h
      exact le_trans (foldl_min_le_init t _) (min_le_right _ _)
    · exact ih _ r h

theorem foldl_min_attained (t : List TimelineRow) :
    ∀ a : ℤ, t.foldl (fun m x => min m x.start) a = a ∨
      ∃ r ∈ t, t.foldl (fun m x => min m x.start) a = r.start := by
  induction t with
  | nil => intro a; exact Or.inl rfl
  | cons x t ih =>
    intro a
    rw [List.foldl_cons]
    rcases ih (min a x.start) with h | hex
    · rcases min_cases a x.start with ⟨he, -⟩ | ⟨he, -⟩
      · exact Or.inl (h.trans he)
      · exact Or.inr ⟨x, List.mem_cons_self _ _, h.trans he⟩
    · obtain ⟨r, hr, h⟩ := hex
      exact Or.inr ⟨r, List.mem_cons_of_mem _ hr, h⟩

theorem foldl_max_ge_init (t : List TimelineRow) :
    ∀ a : ℤ, a ≤ t.foldl (fun m x => max m x.stop) a := by
  induction t with
  | nil => intro a; exact le_rfl
  | cons x t ih =>
    intro a
    rw [List.foldl_cons]
    exact le_trans (le_max_left _ _) (ih (max a x.stop))

theorem foldl_max_ge_mem (t : List TimelineRow) :
    ∀ (a : ℤ) (r : TimelineRow), r ∈ t →
      r.stop ≤ t.foldl (fun m x => max m x.stop) a := by
  induction t with
  | nil => intro a r hr; exact absurd hr (List.not_mem_nil _)
  | cons x t ih =>
    intro a r hr
    rw [List.foldl_cons]
    rcases List.mem_cons.mp hr with h | h
    · subst h
      exact le_trans (le_max_right _ _) (foldl_max_ge_init t _)
    · exact ih _ r h

theorem foldl_max_attained (t : List TimelineRow) :
    ∀ a : ℤ, t.foldl (fun m x => max m x.stop) a = a ∨
      ∃ r ∈ t, t.foldl (fun m x => max m x.stop) a = r.stop := by
  induction t with
  | nil => intro a; exact Or.inl rfl
  | cons x t ih =>
    intro a
    rw [List.foldl_cons]
    rcases ih (max a x.stop) with h | hex
    · rcases max_cases a x.stop with ⟨he, -⟩ | ⟨he, -⟩
      · exact Or.inl (h.trans he)
      · exact Or.inr ⟨x, List.mem_cons_self _ _, h.trans he⟩
    · obtain ⟨r, hr, h⟩ := hex
      exact Or.inr ⟨r, List.mem_cons_of_mem _ hr, h⟩

theorem minStartOf_le {rows : List TimelineRow} {r : TimelineRow}
    (hr : r ∈ rows) : minStartOf rows ≤ r.start := by
  cases rows with
  | nil => exact absurd hr (List.not_mem_nil _)
  | cons r0 t =>
    unfold minStartOf
    rcases List.mem_cons.mp hr with h | h
    · subst h; exact foldl_min_le_init t _
    · exact foldl_min_le_mem t _ r h

theorem minStartOf_attained (rows : List TimelineRow) (h : rows ≠ []) :
    ∃ r ∈ rows, minStartOf rows = r.start := by
  cases rows with
  | nil => exact absurd rfl h
  | cons r0 t =>
    unfold minStartOf
    rcases foldl_min_attained t r0.start with he | hex
    · exact ⟨r0, List.mem_cons_self _ _, he⟩
    · obtain ⟨r, hr, he⟩ := hex
      exact ⟨r, List.mem_cons_of_mem _ hr, he⟩

theorem maxEndOf_ge {rows : List TimelineRow} {r : TimelineRow}
    (hr : r ∈ rows) : r.stop ≤ maxEndOf rows := by
  cases rows with
  | nil => exact absurd hr (List.not_mem_nil _)
  | cons r0 t =>
    unfold maxEndOf
    rcases List.mem_cons.mp hr with h | h
    · subst h; exact foldl_max_ge_init t _
    · exact foldl_max_ge_mem t _ r h

theorem maxEndOf_attained (rows : List TimelineRow) (h : rows ≠ []) :
    ∃ r ∈ rows, maxEndOf rows = r.stop := by
  cases rows with
  | nil => exact absurd rfl h
  | cons r0 t =>
    unfold maxEndOf
    rcases foldl_max_attained t r0.stop with he | hex
    · exact ⟨r0, List.mem_cons_self _ _, he⟩
    · obtain ⟨r, hr, he⟩ := hex
      exact ⟨r, List.mem_cons_of_mem _ hr, he⟩

theorem dictGet_append (a b : List (String × String)) (k : String) :
    dictGet (a ++ b) k =
      match dictGet b k with
      | some v => some v
      | none => dictGet a k := by
  induction a with
  | nil =>
    rw [List.nil_append]
    cases dictGet b k <;> rfl
  | cons p a ih =>
    rw [List.cons_append]
    show (match dictGet (a ++ b) k with
      | some v => some v
      | none => if p.1 = k then some p.2 else none) =
      match dictGet b k with
      | some v => some v
      | none =>
        match dictGet a k with
        | some v => some v
        | none => if p.1 = k then some p.2 else none
    rw [ih]
    cases dictGet b k with
    | some v => rfl
    | none =>
      cases dictGet a k with
      | some v => rfl
      | none => rfl

theorem str_ext {s t : String} (h : s.data = t.data) : s = t := by
  cases s; cases t; exact congrArg String.mk h

theorem digitChar_isDigit {n : ℕ} (h : n < 10) :
    (Nat.digitChar n).isDigit = true := by
  interval_cases n <;> decide

theorem extract_variables_block_no_marker (text : String)
    (h : str_contains text ":::variables" = false) :
    extract_variables_block text = (text, []) := by
  unfold str_contains at h
  unfold extract_variables_block
  rw [scanVarsFuel_no_marker _ _ h]

theorem substitute_variables_no_brace (text : String)
    (vars : List (String × String)) (h : ∀ c ∈ text.data, c ≠ '\x7b') :
    substitute_variables text vars = text := by
  unfold substitute_variables
  rw [subVarsFuel_no_brace vars _ _ le_rfl h]

/-! ## Claim theorems -/

/-- C9: `render_markdown` is total.  For every CommonMark renderer, input
text and variables mapping, the exception-tracking copy of the pipeline
(whose `error` cases sit exactly at the Python raise points: `min`/`max` of
an empty sequence and division by zero) returns `Except.ok` with the very
string `render_markdown` produces — no exception propagates out of the
rendering pipeline. -/
theorem claim_C9 (md : String → String) (text : String)
    (vars : List (String × String)) :
    render_markdownE md text vars = Except.ok (render_markdown md text vars) :=
  render_markdownE_ok md text vars

/-- C6 counterexample: the claim's characterisation of the subtotal (sum over
all pipe-containing, non-separator, two-cell, non-`total` rows of the parsed
last cell) fails on the line `Discount: 10% | x | 5`: the code matches the
line as a discount modifier and never sums it (subtotal 0), while the claimed
sum is 5. -/
theorem claim_C6_counterexample :
    (summarize_pricing_values c6_modifier_line).1 = 0
    ∧ subtotal_claimed c6_modifier_line = 5
    ∧ (summarize_pricing_values c6_modifier_line).1
        ≠ subtotal_claimed c6_modifier_line := by
  with_unfolding_all decide

/-- C6 amended: the computed subtotal equals the claimed per-line sum once
lines matching the discount/tax modifier patterns (which the summarising loop
consumes before the table-row check) are also excluded. -/
theorem claim_C6_amended (content : String) :
    (summarize_pricing_values content).1 = subtotal_amended content :=
  subtotal_src_eq_amended content

/-- C3: on a key collision the explicit mapping wins.  The merged mapping
`inline ++ explicit` looks up to the explicit binding whenever one exists and
falls back to the inline binding otherwise; concretely, rendering a document
whose inline `variables` block sets `client_name: Inline Corp` with an
explicit `client_name = Override Corp` hands the final renderer the text with
`Override Corp` substituted, which contains `Override Corp` and not
`Inline Corp`. -/
theorem claim_C3 :
    (∀ (inline explicit : List (String × String)) (k : String),
      dictGet (inline ++ explicit) k =
        match dictGet explicit k with
        | some v => some v
        | none => dictGet inline k)
    ∧ (∀ md : String → String,
        render_markdown md c3_document [("client_name", "Override Corp")]
          = md "\n\nHello Override Corp.")
    ∧ str_contains "\n\nHello Override Corp." "Override Corp" = true
    ∧ str_contains "\n\nHello Override Corp." "Inline Corp" = false := by
  refine ⟨dictGet_append, ?_, by decide, by decide⟩
  intro md
  unfold render_markdown
  have hx : extract_variables_block c3_document
      = ("\n\nHello \x7b\x7bclient_name\x7d\x7d.",
        [("client_name", "Inline Corp")]) := by
    with_unfolding_all decide
  rw [hx]
  dsimp only
  have hsub : substitute_variables "\n\nHello \x7b\x7bclient_name\x7d\x7d."
      ([("client_name", "Inline Corp")] ++ [("client_name", "Override Corp")])
      = "\n\nHello Override Corp." := by
    with_unfolding_all decide
  rw [hsub]
  rw [process_custom_blocks_no_markers md _ (by decide) (by decide) (by decide)]

/-- C4: placeholder substitution.  A placeholder — brace pair, optional
whitespace, word-character identifier, optional whitespace, brace pair — is
replaced by the mapping's value when the identifier is bound, and otherwise
the original placeholder text (braces included) is kept, after which scanning
continues; text before a placeholder (containing no opening brace) passes
through untouched; concretely an unknown variable is preserved verbatim and a
known one is substituted. -/
theorem claim_C4 :
    (∀ (vars : List (String × String)) (ws1 ident ws2 post : List Char),
      (∀ c ∈ ws1, isSpaceChar c = true) → ident ≠ [] →
      (∀ c ∈ ident, isWordChar c = true) → (∀ c ∈ ws2, isSpaceChar c = true) →
      (substitute_variables
        (⟨'\x7b' :: '\x7b' ::
          (ws1 ++ (ident ++ (ws2 ++ ('\x7d' :: '\x7d' :: post))))⟩ : String)
        vars).data
        = (match dictGet vars (⟨ident⟩ : String) with
           | some v => v.data
           | none => '\x7b' :: '\x7b' :: (ws1 ++ ident ++ ws2 ++ ['\x7d', '\x7d']))
          ++ (substitute_variables (⟨post⟩ : String) vars).data)
    ∧ (∀ (vars : List (String × String)) (pre l : List Char),
        (∀ c ∈ pre, c ≠ '\x7b') →
        (substitute_variables (⟨pre ++ l⟩ : String) vars).data
          = pre ++ (substitute_variables (⟨l⟩ : String) vars).data)
    ∧ substitute_variables "Hello \x7b\x7bunknown_var\x7d\x7d" []
        = "Hello \x7b\x7bunknown_var\x7d\x7d"
    ∧ substitute_variables "Hello \x7b\x7bclient_name\x7d\x7d"
        [("client_name", "Acme Corp")] = "Hello Acme Corp" := by
  refine ⟨?_, ?_, by decide, by decide⟩
  · intro vars ws1 ident ws2 post hws1 hid hidw hws2
    unfold substitute_variables
    exact subVarsFuel_placeholder vars ws1 ident ws2 post _ hws1 hid hidw hws2
      le_rfl
  · intro vars pre l hpre
    unfold substitute_variables
    exact subVarsFuel_passthrough vars _ pre l hpre le_rfl

/-- C4 witness: the placeholder law instantiated at the placeholder
`brace-brace space name brace-brace` with the binding `name = v`. -/
theorem claim_C4_witness :
    (substitute_variables
      (⟨'\x7b' :: '\x7b' ::
        ([' '] ++ (['n', 'a', 'm', 'e'] ++ ([] ++ ('\x7d' :: '\x7d' :: []))))⟩ : String)
      [("name", "v")]).data
      = (match dictGet [("name", "v")] (⟨['n', 'a', 'm', 'e']⟩ : String) with
         | some v => v.data
         | none => '\x7b' :: '\x7b' ::
            ([' '] ++ ['n', 'a', 'm', 'e'] ++ [] ++ ['\x7d', '\x7d']))
        ++ (substitute_variables (⟨[]⟩ : String) [("name", "v")]).data :=
  claim_C4.1 [("name", "v")] [' '] ['n', 'a', 'm', 'e'] [] []
    (by decide) (by decide) (by decide) (by decide)

/-- C8: malformed directives pass through.  A text with no
`newline colon-colon-colon` terminator (an unterminated block) is left
unchanged by the dispatcher, as is a text mentioning none of the three
directive markers (an unknown name); concretely a document with an unknown
`mystery` directive reaches the final CommonMark render verbatim, and an
unterminated `pricing` block is left untouched, with no error in either
case. -/
theorem claim_C8 :
    (∀ (md : String → String) (text : String),
      str_contains text "\n:::" = false → process_custom_blocks md text = text)
    ∧ (∀ (md : String → String) (text : String),
      str_contains text ":::pricing" = false →
      str_contains text ":::timeline" = false →
      str_contains text ":::signature" = false →
      process_custom_blocks md text = text)
    ∧ (∀ md : String → String,
        render_markdown md c8_unknown_doc [] = md c8_unknown_doc)
    ∧ (∀ md : String → String,
        process_custom_blocks md c8_unterminated = c8_unterminated) := by
  refine ⟨process_custom_blocks_no_close, process_custom_blocks_no_markers,
    ?_, ?_⟩
  · intro md
    unfold render_markdown
    rw [extract_variables_block_no_marker c8_unknown_doc (by decide)]
    dsimp only
    rw [List.nil_append,
      substitute_variables_no_brace c8_unknown_doc [] (by decide)]
    rw [process_custom_blocks_no_markers md _ (by decide) (by decide) (by decide)]
  · intro md
    exact process_custom_blocks_no_close md _ (by decide)

/-- C8 witness: the unterminated-block clause at a concrete input. -/
theorem claim_C8_witness :
    process_custom_blocks idMd c8_unterminated = c8_unterminated :=
  claim_C8.1 idMd c8_unterminated (by decide)

/-- C5 counterexample: the dispatcher's directive pattern is not anchored to
line starts and does not require the closing delimiter to stand alone on its
line.  In `ab:::pricing newline row newline :::cd` the marker is preceded by
`ab` on its line and the closing `:::` is followed by `cd`, yet the region is
recognised and replaced (the claim says it must not be). -/
theorem claim_C5_counterexample :
    process_custom_blocks idMd c5_midline_text ≠ c5_midline_text := by
  with_unfolding_all decide

/-- C5 amended: a fenced directive region is recognised and replaced exactly
when the text contains `colon-colon-colon name` — at any position, not
necessarily at a line start — followed by a whitespace run containing a
newline, with a later newline immediately followed by `:::` (which may share
its line with trailing text).  Without such a terminator, or without any of
the three directive markers, the text is unchanged; the mid-line occurrence
is replaced in place, keeping its surrounding `ab`/`cd` text. -/
theorem claim_C5_amended :
    (∀ (md : String → String) (text : String),
      str_contains text "\n:::" = false → process_custom_blocks md text = text)
    ∧ (∀ (md : String → String) (text : String),
      str_contains text ":::pricing" = false →
      str_contains text ":::timeline" = false →
      str_contains text ":::signature" = false →
      process_custom_blocks md text = text)
    ∧ process_custom_blocks idMd c5_midline_text
        = "ab" ++ render_pricing_block idMd "| x | 5 |" ++ "cd"
    ∧ process_custom_blocks idMd ":::pricing\n| x | 5 |\n:::"
        = render_pricing_block idMd "| x | 5 |" := by
  refine ⟨process_custom_blocks_no_close, process_custom_blocks_no_markers,
    ?_, ?_⟩
  · with_unfolding_all decide
  · with_unfolding_all decide

/-- C5 witness: the no-terminator clause at a concrete input. -/
theorem claim_C5_witness :
    process_custom_blocks idMd "just text, no directives"
      = "just text, no directives" :=
  claim_C5_amended.1 idMd "just text, no directives" (by decide)

/-- C2: pricing summary arithmetic.  For every pricing block the summary
panel displays the subtotal and a grand total computed by applying the
discount to the raw subtotal first and the tax to the discounted amount
(exactly the claimed formulas); the worked example with rows of 200 and 300
dollars, a 10 percent discount and an 8 percent tax yields subtotal 500,
discount amount 50, tax amount 36 and total 486, the summary containing
`$500.00`, `-$50.00`, `$36.00` and `Total: $486.00`; and money is always
formatted as a dollar sign followed by digits, a dot, and exactly two digit
characters. -/
theorem claim_C2 :
    (∀ content : String,
      str_contains (build_pricing_summary content)
        (subtotal_div (pricing_totals_claim content).1) = true
      ∧ str_contains (build_pricing_summary content)
        (grand_total_div (pricing_totals_claim content).2.2.2) = true)
    ∧ summarize_pricing_values pricing_example = (500, 10, 8)
    ∧ pricing_totals_claim pricing_example = (500, 50, 36, 486)
    ∧ str_contains (build_pricing_summary pricing_example) "$500.00" = true
    ∧ str_contains (build_pricing_summary pricing_example) "-$50.00" = true
    ∧ str_contains (build_pricing_summary pricing_example) "$36.00" = true
    ∧ str_contains (build_pricing_summary pricing_example)
        "<strong>Total:</strong> $486.00" = true
    ∧ (∀ q : ℚ, ∃ (mid : String) (c1 c2 : Char),
        format_money q = "$" ++ mid ++ "." ++ (⟨[c1, c2]⟩ : String)
        ∧ c1.isDigit = true ∧ c2.isDigit = true) := by
  refine ⟨?_, by with_unfolding_all decide, by with_unfolding_all decide,
    by with_unfolding_all decide, by with_unfolding_all decide,
    by with_unfolding_all decide, by with_unfolding_all decide, ?_⟩
  · intro content
    constructor
    · unfold build_pricing_summary str_contains
      dsimp only
      simp only [str_data_append, List.append_assoc]
      exact listContainsSub_append_left _ _ _ (listContainsSub_atFront _ _)
    · have hval : (pricing_totals_claim content).2.2.2
          = (summarize_pricing_values content).1
            - (summarize_pricing_values content).1
              * ((summarize_pricing_values content).2.1 / 100)
            + ((summarize_pricing_values content).1
              - (summarize_pricing_values content).1
                * ((summarize_pricing_values content).2.1 / 100))
              * ((summarize_pricing_values content).2.2 / 100) := by
        unfold pricing_totals_claim
        dsimp only
        ring
      rw [hval]
      unfold build_pricing_summary str_contains
      dsimp only
      simp only [str_data_append, List.append_assoc]
      exact listContainsSub_append_left _ _ _
        (listContainsSub_append_left _ _ _
          (listContainsSub_append_left _ _ _
            (listContainsSub_append_left _ _ _
              (listContainsSub_atFront _ _))))
  · intro q
    refine ⟨(if roundHalfEven (q * 100) < 0 then "-" else "")
        ++ Nat.repr ((roundHalfEven (q * 100)).natAbs / 100),
      Nat.digitChar ((roundHalfEven (q * 100)).natAbs / 10 % 10),
      Nat.digitChar ((roundHalfEven (q * 100)).natAbs % 10), ?_, ?_, ?_⟩
    · apply str_ext
      simp only [format_money, formatFixed2, str_data_append, List.append_assoc]
    · exact digitChar_isDigit (Nat.mod_lt _ (by norm_num))
    · exact digitChar_isDigit (Nat.mod_lt _ (by norm_num))

/-- C7: Gantt geometry.  For a nonempty row list, `timeline_span` returns the
least entry start (a lower bound that is attained) paired with
`max 1 (greatest end - least start + 1)` where the greatest end is an upper
bound that is attained; every rendered row carries a bar whose style is
`margin-left:` offset `%;width:` width `%;` with the claimed offset and width
formulas formatted to two decimals, and the escaped label suffixed by
`(W start - W end)`; the spec's two-entry example renders bars at
0%/40% and 40%/60% with labels `(W1-W2)` and `(W3-W5)`. -/
theorem claim_C7 :
    (∀ rows : List TimelineRow, rows ≠ [] →
      (∀ r ∈ rows, (timeline_span rows).1 ≤ r.start)
      ∧ (∃ r ∈ rows, (timeline_span rows).1 = r.start)
      ∧ (∀ r ∈ rows, r.stop ≤ maxEndOf rows)
      ∧ (∃ r ∈ rows, maxEndOf rows = r.stop)
      ∧ (timeline_span rows).2
          = max 1 (maxEndOf rows - (timeline_span rows).1 + 1))
    ∧ (∀ (row : TimelineRow) (a s : ℤ),
      gantt_bar_style row a s
        = "margin-left:" ++ formatFixed2 (ganttOffset row a s)
          ++ "%;width:" ++ formatFixed2 (ganttWidth row s) ++ "%;"
      ∧ ganttOffset row a s = (((row.start - a : ℤ) : ℚ) / (s : ℚ)) * 100
      ∧ ganttWidth row s = (((row.stop - row.start + 1 : ℤ) : ℚ) / (s : ℚ)) * 100
      ∧ gantt_label_html row
        = escape_html row.label ++ " <span class=\"muted\">(W"
          ++ intStr row.start ++ "-W" ++ intStr row.stop ++ ")</span>"
      ∧ str_contains (render_gantt_row row a s) (gantt_bar_style row a s) = true
      ∧ str_contains (render_gantt_row row a s) (gantt_label_html row) = true)
    ∧ str_contains (build_timeline_gantt timeline_example)
        "margin-left:0.00%;width:40.00%;" = true
    ∧ str_contains (build_timeline_gantt timeline_example)
        "margin-left:40.00%;width:60.00%;" = true
    ∧ str_contains (build_timeline_gantt timeline_example) "(W1-W2)" = true
    ∧ str_contains (build_timeline_gantt timeline_example) "(W3-W5)" = true := by
  refine ⟨?_, ?_, by with_unfolding_all decide, by with_unfolding_all decide,
    by with_unfolding_all decide, by with_unfolding_all decide⟩
  · intro rows hne
    exact ⟨fun r hr => minStartOf_le hr, minStartOf_attained rows hne,
      fun r hr => maxEndOf_ge hr, maxEndOf_attained rows hne, rfl⟩
  · intro row a s
    refine ⟨rfl, rfl, rfl, rfl, ?_, ?_⟩
    · unfold render_gantt_row str_contains
      simp only [str_data_append, List.append_assoc]
      exact listContainsSub_append_left _ _ _
        (listContainsSub_append_left _ _ _
          (listContainsSub_append_left _ _ _
            (listContainsSub_append_left _ _ _
              (listContainsSub_append_left _ _ _
                (listContainsSub_append_left _ _ _
                  (listContainsSub_atFront _ _))))))
    · unfold render_gantt_row str_contains
      simp only [str_data_append, List.append_assoc]
      exact listContainsSub_append_left _ _ _
        (listContainsSub_append_left _ _ _
          (listContainsSub_atFront _ _))

/-- C7 witness: the span characterisation applied to the two-entry example
rows. -/
theorem claim_C7_witness :
    (timeline_span [(⟨1, 2, "Discovery"⟩ : TimelineRow), ⟨3, 5, "Build"⟩]).1
      ≤ (⟨1, 2, "Discovery"⟩ : TimelineRow).start :=
  (claim_C7.1 [⟨1, 2, "Discovery"⟩, ⟨3, 5, "Build"⟩] (by decide)).1
    ⟨1, 2, "Discovery"⟩ (by decide)

/-- C10: bars stay on the track.  When every parsed entry satisfies
`start ≤ end`, every bar of a nonempty timeline has nonnegative offset,
positive width, and offset plus width at most 100 (as exact rationals,
before the two-decimal formatting). -/
theorem claim_C10 (rows : List TimelineRow) (_hne : rows ≠ [])
    (hord : ∀ x ∈ rows, x.start ≤ x.stop) :
    ∀ r ∈ rows,
      0 ≤ ganttOffset r (timeline_span rows).1 (timeline_span rows).2
      ∧ 0 < ganttWidth r (timeline_span rows).2
      ∧ ganttOffset r (timeline_span rows).1 (timeline_span rows).2
          + ganttWidth r (timeline_span rows).2 ≤ 100 := by
  intro r hr
  have ha : minStartOf rows ≤ r.start := minStartOf_le hr
  have hend : r.stop ≤ maxEndOf rows := maxEndOf_ge hr
  have hw : r.start ≤ r.stop := hord r hr
  have hs1 : (1 : ℤ) ≤ (timeline_span rows).2 := timeline_span_pos rows
  have hspan : r.stop - minStartOf rows + 1 ≤ (timeline_span rows).2 := by
    have hmx : maxEndOf rows - minStartOf rows + 1
        ≤ max 1 (maxEndOf rows - minStartOf rows + 1) := le_max_right _ _
    have h2 : (timeline_span rows).2
        = max 1 (maxEndOf rows - minStartOf rows + 1) := rfl
    omega
  have h1 : (timeline_span rows).1 = minStartOf rows := rfl
  have hsQ : (0 : ℚ) < (((timeline_span rows).2 : ℤ) : ℚ) := by
    exact_mod_cast lt_of_lt_of_le zero_lt_one hs1
  refine ⟨?_, ?_, ?_⟩
  · unfold ganttOffset
    rw [h1]
    apply mul_nonneg
    · apply div_nonneg _ (le_of_lt hsQ)
      have hz : (0 : ℤ) ≤ r.start - minStartOf rows := by omega
      exact_mod_cast hz
    · norm_num
  · unfold ganttWidth
    apply mul_pos
    · apply div_pos _ hsQ
      have hz : (0 : ℤ) < r.stop - r.start + 1 := by omega
      exact_mod_cast hz
    · norm_num
  · unfold ganttOffset ganttWidth
    rw [h1]
    have hcomb : (((r.start - minStartOf rows : ℤ) : ℚ)
          / (((timeline_span rows).2 : ℤ) : ℚ)) * 100
        + (((r.stop - r.start + 1 : ℤ) : ℚ)
          / (((timeline_span rows).2 : ℤ) : ℚ)) * 100
        = (((r.stop - minStartOf rows + 1 : ℤ) : ℚ)
          / (((timeline_span rows).2 : ℤ) : ℚ)) * 100 := by
      push_cast
      ring
    rw [hcomb]
    have hle1 : ((r.stop - minStartOf rows + 1 : ℤ) : ℚ)
        / (((timeline_span rows).2 : ℤ) : ℚ) ≤ 1 := by
      rw [div_le_one hsQ]
      exact_mod_cast hspan
    calc (((r.stop - minStartOf rows + 1 : ℤ) : ℚ)
          / (((timeline_span rows).2 : ℤ) : ℚ)) * 100
        ≤ 1 * 100 := by
          apply mul_le_mul_of_nonneg_right hle1
          norm_num
      _ = 100 := by norm_num

/-- C10 witness: the bound at the first example row. -/
theorem claim_C10_witness :
    0 ≤ ganttOffset ⟨1, 2, "Discovery"⟩
        (timeline_span [(⟨1, 2, "Discovery"⟩ : TimelineRow), ⟨3, 5, "Build"⟩]).1
        (timeline_span [(⟨1, 2, "Discovery"⟩ : TimelineRow), ⟨3, 5, "Build"⟩]).2
    ∧ 0 < ganttWidth ⟨1, 2, "Discovery"⟩
        (timeline_span [(⟨1, 2, "Discovery"⟩ : TimelineRow), ⟨3, 5, "Build"⟩]).2
    ∧ ganttOffset ⟨1, 2, "Discovery"⟩
        (timeline_span [(⟨1, 2, "Discovery"⟩ : TimelineRow), ⟨3, 5, "Build"⟩]).1
        (timeline_span [(⟨1, 2, "Discovery"⟩ : TimelineRow), ⟨3, 5, "Build"⟩]).2
      + ganttWidth ⟨1, 2, "Discovery"⟩
        (timeline_span [(⟨1, 2, "Discovery"⟩ : TimelineRow), ⟨3, 5, "Build"⟩]).2
      ≤ 100 :=
  claim_C10 [⟨1, 2, "Discovery"⟩, ⟨3, 5, "Build"⟩] (by decide)
    (by decide) ⟨1, 2, "Discovery"⟩ (by decide)

/-- C1 counterexample: the claim's `never contains the raw unescaped
substring` fails when the user text coincides with the renderer's own fixed
markup.  The signature value `<span class="sig-value">` (which contains the
dangerous characters) is escaped, yet the rendered document still contains
that raw substring — it is the template's own opening tag. -/
theorem claim_C1_counterexample :
    has_dangerous (sigValueOf sig_template_payload) = true
    ∧ str_contains (render_markdown idMd c1_document [])
        "<span class=\"sig-value\">" = true := by
  with_unfolding_all decide

/-- C1 amended: every signature line is rendered with its label, value or
plain text HTML-escaped, and every timeline label is rendered escaped; the
escaped form of any text contains no raw angle brackets or quotes, so
user-authored markup is never live — raw coincidences can only come from the
renderer's fixed template; in particular the `<script>alert(1)</script>`
payload renders as its entity-escaped form and no `<script` (or `<img`)
substring survives in its rendered line. -/
theorem claim_C1_amended :
    (∀ line : String, line.data.contains ':' = true →
      str_contains (render_signature_line line)
        (escape_html (sigValueOf line)) = true
      ∧ str_contains (render_signature_line line)
        (escape_html (sigLabelOf line)) = true)
    ∧ (∀ line : String, line.data.contains ':' = false →
      str_contains (render_signature_line line) (escape_html line) = true)
    ∧ (∀ (row : TimelineRow) (a s : ℤ),
      str_contains (render_gantt_row row a s) (escape_html row.label) = true)
    ∧ (∀ s : String, ∀ c ∈ (escape_html s).data,
        c ≠ '<' ∧ c ≠ '>' ∧ c ≠ '"' ∧ c ≠ '\x27')
    ∧ str_contains (render_signature_line script_payload_line)
        "&lt;script&gt;alert(1)&lt;/script&gt;" = true
    ∧ str_contains (render_signature_line script_payload_line)
        "<script" = false
    ∧ str_contains (render_gantt_row img_payload_row 1 2)
        "&lt;img src=x onerror=alert(1)&gt;" = true
    ∧ str_contains (render_gantt_row img_payload_row 1 2) "<img" = false := by
  refine ⟨?_, ?_, ?_, ?_, by decide, by decide,
    by with_unfolding_all decide, by with_unfolding_all decide⟩
  · intro line h
    have hcond : ¬((!(line.data.contains ':')) = true) := by rw [h]; decide
    constructor
    · unfold render_signature_line str_contains
      rw [if_neg hcond]
      simp only [str_data_append, List.append_assoc]
      exact listContainsSub_append_left _ _ _
        (listContainsSub_append_left _ _ _
          (listContainsSub_append_left _ _ _
            (listContainsSub_append_left _ _ _
              (listContainsSub_append_left _ _ _
                (listContainsSub_atFront _ _)))))
    · unfold render_signature_line str_contains
      rw [if_neg hcond]
      simp only [str_data_append, List.append_assoc]
      exact listContainsSub_append_left _ _ _
        (listContainsSub_append_left _ _ _
          (listContainsSub_atFront _ _))
  · intro line h
    have hcond : (!(line.data.contains ':')) = true := by rw [h]; rfl
    unfold render_signature_line str_contains
    rw [if_pos hcond]
    simp only [str_data_append, List.append_assoc]
    exact listContainsSub_append_left _ _ _ (listContainsSub_atFront _ _)
  · intro row a s
    unfold render_gantt_row gantt_label_html str_contains
    simp only [str_data_append, List.append_assoc]
    exact listContainsSub_append_left _ _ _
      (listContainsSub_append_left _ _ _
        (listContainsSub_atFront _ _))
  · intro s c hc
    exact escapeList_no_dangerous s.data c hc

/-- C1 witness: the escape law applied to the script payload line. -/
theorem claim_C1_witness :
    str_contains (render_signature_line script_payload_line)
      (escape_html (sigValueOf script_payload_line)) = true :=
  (claim_C1_amended.1 script_payload_line (by decide)).1

end SOW
